import Mathlib

/-!
Verification development for the vLLM completion route
(`api/vllm_routes/completion.py`).

The module shallowly embeds the response-shaping layer of the completion
endpoint:

* `create_logprobs` — the OpenAI-style logprob record builder;
* `generate_completion_stream_generator` — the streaming path that turns a
  sequence of cumulative engine snapshots (`RequestOutput`) into wire chunks;
* `create_completion_nonstream` — the non-streaming aggregation loop with its
  client-disconnect/abort check, final-choice construction and usage
  accounting;
* `create_completion` — the endpoint-level pipeline with its early rejection
  of `echo` and `suffix`.

Modelling conventions:

* Python strings are sequences of code points; generated text is modelled as
  `List Char` (`Str`).  Python slicing `s[k:]` is `List.drop k`,
  `len` is `List.length`, and `str.replace("\xfffd", "")` is a filter.
* `Dict[int, float]` candidate-logprob maps are association lists
  `List (Nat × Int)`; no arithmetic is ever performed on the logprob values,
  so their numeric type is irrelevant and modelled as `Int`.
  A Python `d[k]` subscript that may raise `KeyError` is a fallible lookup;
  the only subscript in `create_logprobs` is the chosen-token lookup, whose
  `KeyError` is represented by `LogprobsError.missingCandidate`.
* `async` generators are pure functions from the (finite) snapshot list to
  the list of produced values; exceptions become `Except`.
* `raw_request.is_disconnected()` is an oracle `Nat → Bool` giving the result
  of the k-th disconnect check; `engine.abort(request_id)` calls are collected
  in a trace list.
* The time-varying `created = int(time.time())` field and the random
  `request_id` generation are kept out of the wire-chunk model / passed as a
  parameter: no claim depends on them.
-/

namespace VllmCompletion

/-- Generated text: a Python string viewed as its list of code points. -/
abbrev Str := List Char

/-- Code points of a Lean string literal (used to write concrete texts). -/
def strOf (s : String) : Str := s.data

/-- The replacement character U+FFFD produced by lossy utf-8 decoding. -/
def replacementChar : Char := Char.ofNat 0xFFFD

/-- `text.replace("\xfffd", "")`: drop every replacement character. -/
def stripRepl (s : Str) : Str := s.filter (fun c => c ≠ replacementChar)

/-- The tokenizer's `convert_ids_to_tokens`, used as a black box. -/
abbrev Tokenizer := Nat → String

/-- One per-token candidate map `Dict[int, float]` (token id → logprob). -/
abbrev LogprobMap := List (Nat × Int)

/-- Python `d[k]` for a candidate map, as a partial lookup. -/
def lookupId (m : LogprobMap) (k : Nat) : Option Int :=
  (m.find? (fun p => p.1 == k)).map (fun p => p.2)

/-- OpenAI-style `Logprobs` record (four aligned sequences). -/
structure Logprobs where
  text_offset : List Nat
  token_logprobs : List Int
  tokens : List String
  top_logprobs : List (List (String × Int))
deriving DecidableEq, Repr

/-- The record `Logprobs(text_offset=[], token_logprobs=[], tokens=[], top_logprobs=[])`. -/
def emptyLogprobs : Logprobs := ⟨[], [], [], []⟩

/-- Failure of `create_logprobs`: the `KeyError` raised by
`id_logprob[token_id]` when the chosen token id is absent from its own
candidate map. -/
inductive LogprobsError where
  | missingCandidate (tokenId : Nat)
deriving DecidableEq, Repr

/-- The loop body of `create_logprobs` over the `zip`-ped pairs, carrying the
current text offset (the source tracks `last_token_len` and adds it to the
previous offset, which accumulates to the same value). -/
def create_logprobs_go (tokenizer : Tokenizer) :
    List (Nat × LogprobMap) → Nat → Except LogprobsError Logprobs
  | [], _ => .ok emptyLogprobs
  | (token_id, id_logprob) :: rest, offset =>
    let token := tokenizer token_id
    match lookupId id_logprob token_id with
    | none => .error (.missingCandidate token_id)
    | some lp =>
      match create_logprobs_go tokenizer rest (offset + token.length) with
      | .error e => .error e
      | .ok r =>
        .ok ⟨offset :: r.text_offset, lp :: r.token_logprobs, token :: r.tokens,
             (id_logprob.map (fun p => (tokenizer p.1, p.2))) :: r.top_logprobs⟩

/-- `create_logprobs(tokenizer, token_ids, id_logprobs, initial_text_offset)`:
`zip` truncates to the shorter input, exactly as in the source. -/
def create_logprobs (tokenizer : Tokenizer) (token_ids : List Nat)
    (id_logprobs : List LogprobMap) (initial_text_offset : Nat) :
    Except LogprobsError Logprobs :=
  create_logprobs_go tokenizer (token_ids.zip id_logprobs) initial_text_offset

/-- One entry of `RequestOutput.outputs`: a choice's cumulative state. -/
structure Output where
  index : Nat
  text : Str
  token_ids : List Nat
  logprobs : List LogprobMap
  finish_reason : Option String
deriving DecidableEq, Repr

/-- One engine snapshot (vLLM `RequestOutput`). -/
structure RequestOutput where
  prompt_token_ids : List Nat
  outputs : List Output
deriving DecidableEq, Repr

/-- One streamed `Completion` chunk for a single choice.  `terminal` records
which of the two `yield` sites produced it (the second, finish-reason site
for `terminal = true`); `exclude_none` records the serialization mode of the
`model_dump_json` call that emitted it. -/
structure WireChunk where
  index : Nat
  text : Str
  finish_reason : String
  logprobs : Option Logprobs
  terminal : Bool
  exclude_none : Bool
deriving DecidableEq, Repr

/-- The mutable per-choice arrays of the streaming generator. -/
structure StreamState where
  previous_texts : List Str
  previous_num_tokens : List Nat
deriving DecidableEq, Repr

/-- Failures of the streaming generator: `IndexError` on
`previous_texts[output.index]`, or a `create_logprobs` failure. -/
inductive StreamError where
  | indexError
  | logprobsFailure (e : LogprobsError)
deriving DecidableEq, Repr

/-- The body of the inner `for output in res.outputs` loop for one output:
strip the text, compute the delta and the new token/logprob slices from the
previous per-choice state, optionally build logprobs with
`base_offset = len(previous_texts[i])`, then update the per-choice state to
the cumulative values, and emit one content chunk plus, when this snapshot
carries a finish reason, one terminal chunk (serialized with
`exclude_none=True`) repeating the delta. -/
def processOutput (tokenizer : Tokenizer) (logprobsRequested : Bool)
    (st : StreamState) (o : Output) :
    Except StreamError (List WireChunk × StreamState) :=
  let i := o.index
  if i < st.previous_texts.length ∧ i < st.previous_num_tokens.length then
    let text := stripRepl o.text
    let prevText := st.previous_texts.getD i []
    let prevCount := st.previous_num_tokens.getD i 0
    let delta_text := text.drop prevText.length
    let logprobsStep : Except StreamError (Option Logprobs) :=
      if logprobsRequested then
        match create_logprobs tokenizer (o.token_ids.drop prevCount)
            (o.logprobs.drop prevCount) prevText.length with
        | .error e => .error (.logprobsFailure e)
        | .ok r => .ok (some r)
      else .ok none
    match logprobsStep with
    | .error e => .error e
    | .ok lps =>
      let st' : StreamState :=
        ⟨st.previous_texts.set i text, st.previous_num_tokens.set i o.token_ids.length⟩
      let content : WireChunk := ⟨i, delta_text, "stop", lps, false, false⟩
      if o.finish_reason.isSome then
        let termLp : Option Logprobs :=
          if logprobsRequested then some emptyLogprobs else none
        .ok ([content, ⟨i, delta_text, "stop", termLp, true, true⟩], st')
      else
        .ok ([content], st')
  else .error .indexError

/-- The inner loop over `res.outputs` of one snapshot. -/
def processOutputs (tokenizer : Tokenizer) (logprobsRequested : Bool)
    (st : StreamState) : List Output → Except StreamError (List WireChunk × StreamState)
  | [] => .ok ([], st)
  | o :: rest =>
    match processOutput tokenizer logprobsRequested st o with
    | .error e => .error e
    | .ok (cs, st1) =>
      match processOutputs tokenizer logprobsRequested st1 rest with
      | .error e => .error e
      | .ok (cs', st2) => .ok (cs ++ cs', st2)

/-- The outer `async for res in result_generator` loop. -/
def streamSnapshots (tokenizer : Tokenizer) (logprobsRequested : Bool)
    (st : StreamState) : List RequestOutput → Except StreamError (List WireChunk × StreamState)
  | [] => .ok ([], st)
  | res :: rest =>
    match processOutputs tokenizer logprobsRequested st res.outputs with
    | .error e => .error e
    | .ok (cs, st1) =>
      match streamSnapshots tokenizer logprobsRequested st1 rest with
      | .error e => .error e
      | .ok (cs', st2) => .ok (cs ++ cs', st2)

/-- `generate_completion_stream_generator`: run the stream over the engine's
snapshot list starting from `previous_texts = [""] * n`,
`previous_num_tokens = [0] * n`, returning the emitted chunks. -/
def generate_completion_stream_generator (tokenizer : Tokenizer)
    (logprobsRequested : Bool) (n : Nat) (snapshots : List RequestOutput) :
    Except StreamError (List WireChunk) :=
  match streamSnapshots tokenizer logprobsRequested
      ⟨List.replicate n [], List.replicate n 0⟩ snapshots with
  | .error e => .error e
  | .ok (cs, _) => .ok cs

/-- One final `CompletionChoice` of the non-streaming response. -/
structure CompletionChoice where
  index : Nat
  text : Str
  finish_reason : Option String
  logprobs : Option Logprobs
deriving DecidableEq, Repr

/-- `CompletionUsage`. -/
structure CompletionUsage where
  prompt_tokens : Nat
  completion_tokens : Nat
  total_tokens : Nat
deriving DecidableEq, Repr

/-- The non-streaming `Completion` response (`created` omitted: it is wall
clock time and no property depends on it). -/
structure Completion where
  id : String
  choices : List CompletionChoice
  model : String
  usage : CompletionUsage
deriving DecidableEq, Repr

/-- Failures of the non-streaming path after the consume loop:
`assert final_res is not None`, or a `create_logprobs` failure. -/
inductive AggError where
  | assertionFailed
  | logprobsFailure (e : LogprobsError)
deriving DecidableEq, Repr

/-- Result of the non-streaming path: the `engine.abort` calls that were
issued and the response, if any (the disconnect path returns `None`). -/
structure AggOutcome where
  abortCalls : List String
  response : Option Completion
deriving DecidableEq, Repr

/-- The `for output in final_res.outputs` loop of the non-streaming path:
strip the text, optionally build full logprobs over the entire cumulative
token/logprob sequences with base offset 0 (the default), and keep the
engine's `finish_reason` verbatim. -/
def buildChoices (tokenizer : Tokenizer) (logprobsRequested : Bool) :
    List Output → Except AggError (List CompletionChoice)
  | [] => .ok []
  | o :: rest =>
    let text := stripRepl o.text
    let logprobsStep : Except AggError (Option Logprobs) :=
      if logprobsRequested then
        match create_logprobs tokenizer o.token_ids o.logprobs 0 with
        | .error e => .error (.logprobsFailure e)
        | .ok r => .ok (some r)
      else .ok none
    match logprobsStep with
    | .error e => .error e
    | .ok lp =>
      match buildChoices tokenizer logprobsRequested rest with
      | .error e => .error e
      | .ok cs => .ok (⟨o.index, text, o.finish_reason, lp⟩ :: cs)

/-- Build the final `Completion` from the last snapshot: choices, then usage
(`prompt_tokens = len(final_res.prompt_token_ids)`,
`completion_tokens = sum(len(output.token_ids))`, total = their sum). -/
def buildCompletion (tokenizer : Tokenizer) (logprobsRequested : Bool)
    (request_id model : String) (final_res : RequestOutput) :
    Except AggError Completion :=
  match buildChoices tokenizer logprobsRequested final_res.outputs with
  | .error e => .error e
  | .ok choices =>
    let num_prompt_tokens := final_res.prompt_token_ids.length
    let num_generated_tokens :=
      (final_res.outputs.map (fun o => o.token_ids.length)).sum
    .ok ⟨request_id, choices, model,
         ⟨num_prompt_tokens, num_generated_tokens,
          num_prompt_tokens + num_generated_tokens⟩⟩

/-- The `async for res in result_generator` loop of the non-streaming path:
after pulling the k-th snapshot, check `raw_request.is_disconnected()`; if
disconnected, stop (the caller aborts), else remember the snapshot as
`final_res` and continue.  Returns `none` on the disconnect path, else the
last remembered snapshot. -/
def consumeLoop (disconnected : Nat → Bool) :
    Nat → Option RequestOutput → List RequestOutput → Option (Option RequestOutput)
  | _, final_res, [] => some final_res
  | k, _final_res, res :: rest =>
    if disconnected k then none
    else consumeLoop disconnected (k + 1) (some res) rest
/- NB: on disconnect the previous `final_res` is discarded. -/

/-- The whole non-streaming branch of `create_completion`: consume snapshots
with the disconnect check (aborting with the request id on disconnect and
producing no response), assert that at least one snapshot arrived, and build
the final `Completion`. -/
def create_completion_nonstream (tokenizer : Tokenizer) (logprobsRequested : Bool)
    (request_id model : String) (disconnected : Nat → Bool)
    (snapshots : List RequestOutput) : Except AggError AggOutcome :=
  match consumeLoop disconnected 0 none snapshots with
  | none => .ok ⟨[request_id], none⟩
  | some none => .error .assertionFailed
  | some (some final_res) =>
    match buildCompletion tokenizer logprobsRequested request_id model final_res with
    | .error e => .error e
    | .ok resp => .ok ⟨[], some resp⟩

/-- The request fields of `CompletionCreateParams` that the completion route
itself inspects. -/
structure CompletionCreateParams where
  model : String
  n : Nat
  echo : Bool
  suffix : Option String
  stream : Bool
  logprobs : Option Nat
  max_tokens : Option Nat

/-- Python truthiness of the optional `suffix` field (`if request.suffix:`). -/
def truthySuffix : Option String → Bool
  | none => false
  | some s => !(s == "")

/-- The endpoint's external collaborators, fixed for one request:
the tokenizer, the snapshot stream `engine.generate` would produce, whether
`get_model_inputs` succeeds, whether `SamplingParams(...)` raises
`ValueError` (and its message), and the disconnect oracle. -/
structure EngineEnv where
  tokenizer : Tokenizer
  snapshots : List RequestOutput
  modelInputsOk : Bool
  samplingParamsError : Option String
  disconnected : Nat → Bool

/-- What the endpoint returns. -/
inductive EndpointResult where
  | httpError (status : Nat) (detail : String)
  | modelInputsError
  | streamingResponse (chunks : Except StreamError (List WireChunk))
  | clientDisconnected
  | completed (resp : Completion)
  | aggFailure (e : AggError)

/-- Observable effects of one endpoint call: whether `engine.generate` was
reached and how many snapshots were pulled from its result generator. -/
structure EndpointTrace where
  engineGenerateCalled : Bool
  snapshotsConsumed : Nat
deriving DecidableEq, Repr

/-- Snapshots pulled by the non-streaming loop: each iteration pulls one
snapshot and then checks the disconnect oracle, stopping after a positive
check. -/
def consumedCount (disconnected : Nat → Bool) : Nat → Nat → Nat
  | _, 0 => 0
  | k, len + 1 => 1 + (if disconnected k then 0 else consumedCount disconnected (k + 1) len)

/-- `create_completion`: reject `echo` then `suffix` with HTTP 400 before
anything else; then run `get_model_inputs` and `SamplingParams` validation
(both external); only then call `engine.generate` and branch on
`request.stream`.  Returns the result together with the effect trace. -/
def create_completion (request : CompletionCreateParams) (request_id : String)
    (env : EngineEnv) : EndpointResult × EndpointTrace :=
  if request.echo then
    (.httpError 400 "echo is not currently supported", ⟨false, 0⟩)
  else if truthySuffix request.suffix then
    (.httpError 400 "suffix is not currently supported", ⟨false, 0⟩)
  else if !env.modelInputsOk then
    (.modelInputsError, ⟨false, 0⟩)
  else
    match env.samplingParamsError with
    | some msg => (.httpError 400 msg, ⟨false, 0⟩)
    | none =>
      let logprobsRequested := request.logprobs.isSome
      if request.stream then
        (.streamingResponse
          (generate_completion_stream_generator env.tokenizer logprobsRequested
            request.n env.snapshots),
         ⟨true, 0⟩)
      else
        let consumed := consumedCount env.disconnected 0 env.snapshots.length
        match create_completion_nonstream env.tokenizer logprobsRequested
            request_id request.model env.disconnected env.snapshots with
        | .error e => (.aggFailure e, ⟨true, consumed⟩)
        | .ok out =>
          match out.response with
          | none => (.clientDisconnected, ⟨true, consumed⟩)
          | some resp => (.completed resp, ⟨true, consumed⟩)

/-- The outputs of a snapshot list, flattened in processing order. -/
def flatOutputs (snapshots : List RequestOutput) : List Output :=
  snapshots.flatMap (fun s => s.outputs)

/-- The stripped cumulative texts of choice `i`'s outputs, in order. -/
def projTexts (i : Nat) (os : List Output) : List Str :=
  (os.filter (fun o => o.index == i)).map (fun o => stripRepl o.text)

/-- `p` is a prefix of the first text, which is a prefix of the next, ... -/
def prefixChainB : Str → List Str → Bool
  | _, [] => true
  | p, t :: ts => p.isPrefixOf t && prefixChainB t ts

/-- Concatenation of the delta texts of choice `i`'s content (non-terminal)
chunks. -/
def deltaConcat (i : Nat) (chunks : List WireChunk) : Str :=
  ((chunks.filter (fun c => c.index == i && !c.terminal)).map (fun c => c.text)).flatten

/-- The terminal chunks emitted for choice `i`. -/
def terminalChunks (i : Nat) (chunks : List WireChunk) : List WireChunk :=
  chunks.filter (fun c => c.index == i && c.terminal)

/-- The outputs of choice `i` that carry a finish reason. -/
def finishingOutputs (i : Nat) (os : List Output) : List Output :=
  os.filter (fun o => o.index == i && o.finish_reason.isSome)

/-- A concrete tokenizer used for concrete evaluations: token id 1 displays
as a two-character token, everything else as a one-character token. -/
def exTokenizer : Tokenizer := fun n => if n == 1 then "ab" else "c"

/-- Concrete example: choice 0 after the first snapshot. -/
def exOut0 : Output := ⟨0, strOf "Hello,", [1], [[(1, -1)]], none⟩

/-- Concrete example: choice 0 after the second (final) snapshot. -/
def exOut1 : Output :=
  ⟨0, strOf "Hello, world!", [1, 2], [[(1, -1)], [(2, -2)]], some "stop"⟩

/-- Concrete example: first engine snapshot. -/
def exSnap0 : RequestOutput := ⟨[7, 8], [exOut0]⟩

/-- Concrete example: second (final) engine snapshot. -/
def exSnap1 : RequestOutput := ⟨[7, 8], [exOut1]⟩

/-! ### General list/option helper lemmas -/

theorem option_or_getD {α : Type} (a b : Option α) (d : α) :
    (a.or b).getD d = a.getD (b.getD d) := by
  cases a <;> simp

theorem getLastD_append_eq {α : Type} (l1 l2 : List α) (d : α) :
    (l1 ++ l2).getLastD d = l2.getLastD (l1.getLastD d) := by
  simp [List.getLastD_eq_getLast?, List.getLast?_append, option_or_getD]

theorem getD_set_self {α : Type} (l : List α) (i : Nat) (x d : α) (h : i < l.length) :
    (l.set i x).getD i d = x := by
  simp [List.getD_eq_getElem?_getD, List.getElem?_set_self, h]

theorem getD_set_ne {α : Type} (l : List α) (i j : Nat) (x d : α) (h : i ≠ j) :
    (l.set i x).getD j d = l.getD j d := by
  simp [List.getD_eq_getElem?_getD, List.getElem?_set_ne h]

theorem prefix_append_drop {α : Type} {p t : List α} (h : p <+: t) :
    p ++ t.drop p.length = t := by
  obtain ⟨s, rfl⟩ := h
  simp

/-! ### Inversion lemmas for `create_logprobs_go` -/

theorem create_logprobs_go_cons_ok {t : Tokenizer} {tid : Nat} {m : LogprobMap}
    {rest : List (Nat × LogprobMap)} {off : Nat} {r : Logprobs}
    (h : create_logprobs_go t ((tid, m) :: rest) off = .ok r) :
    ∃ lp r', lookupId m tid = some lp ∧
      create_logprobs_go t rest (off + (t tid).length) = .ok r' ∧
      r = ⟨off :: r'.text_offset, lp :: r'.token_logprobs, t tid :: r'.tokens,
           (m.map (fun p => (t p.1, p.2))) :: r'.top_logprobs⟩ := by
  simp only [create_logprobs_go] at h
  cases hl : lookupId m tid with
  | none => rw [hl] at h; exact absurd h (by simp)
  | some lp =>
    rw [hl] at h
    cases hg : create_logprobs_go t rest (off + (t tid).length) with
    | error e => rw [hg] at h; exact absurd h (by simp)
    | ok r' =>
      rw [hg] at h
      exact ⟨lp, r', rfl, rfl, (by simpa using h.symm)⟩

theorem create_logprobs_go_lengths {t : Tokenizer} {ps : List (Nat × LogprobMap)}
    {off : Nat} {r : Logprobs} (h : create_logprobs_go t ps off = .ok r) :
    r.text_offset.length = ps.length ∧ r.token_logprobs.length = ps.length ∧
    r.tokens.length = ps.length ∧ r.top_logprobs.length = ps.length := by
  induction ps generalizing off r with
  | nil =>
    simp only [create_logprobs_go] at h
    cases h
    simp [emptyLogprobs]
  | cons p rest ih =>
    obtain ⟨tid, m⟩ := p
    obtain ⟨lp, r', _, hg, rfl⟩ := create_logprobs_go_cons_ok h
    obtain ⟨h1, h2, h3, h4⟩ := ih hg
    simp [h1, h2, h3, h4]

theorem create_logprobs_go_tokens {t : Tokenizer} {ps : List (Nat × LogprobMap)}
    {off : Nat} {r : Logprobs} (h : create_logprobs_go t ps off = .ok r) :
    ∀ j, j < r.tokens.length → r.tokens.getD j "" = t ((ps.getD j (0, [])).1) := by
  induction ps generalizing off r with
  | nil =>
    simp only [create_logprobs_go] at h
    cases h
    simp [emptyLogprobs]
  | cons p rest ih =>
    obtain ⟨tid, m⟩ := p
    obtain ⟨lp, r', _, hg, rfl⟩ := create_logprobs_go_cons_ok h
    intro j hj
    cases j with
    | zero => simp
    | succ j' =>
      simp only [List.getD_cons_succ]
      exact ih hg j' (by simpa using hj)

theorem create_logprobs_go_chosen {t : Tokenizer} {ps : List (Nat × LogprobMap)}
    {off : Nat} {r : Logprobs} (h : create_logprobs_go t ps off = .ok r) :
    ∀ j, j < r.token_logprobs.length →
      lookupId ((ps.getD j (0, [])).2) ((ps.getD j (0, [])).1)
        = some (r.token_logprobs.getD j 0) := by
  induction ps generalizing off r with
  | nil =>
    simp only [create_logprobs_go] at h
    cases h
    simp [emptyLogprobs]
  | cons p rest ih =>
    obtain ⟨tid, m⟩ := p
    obtain ⟨lp, r', hl, hg, rfl⟩ := create_logprobs_go_cons_ok h
    intro j hj
    cases j with
    | zero => simpa using hl
    | succ j' =>
      simp only [List.getD_cons_succ]
      exact ih hg j' (by simpa using hj)

theorem create_logprobs_go_offsets {t : Tokenizer} {ps : List (Nat × LogprobMap)}
    {off : Nat} {r : Logprobs} (h : create_logprobs_go t ps off = .ok r) :
    (0 < r.text_offset.length → r.text_offset.getD 0 0 = off) ∧
    (∀ j, j + 1 < r.text_offset.length →
      r.text_offset.getD (j + 1) 0
        = r.text_offset.getD j 0 + (r.tokens.getD j "").length) := by
  induction ps generalizing off r with
  | nil =>
    simp only [create_logprobs_go] at h
    cases h
    simp [emptyLogprobs]
  | cons p rest ih =>
    obtain ⟨tid, m⟩ := p
    obtain ⟨lp, r', _, hg, rfl⟩ := create_logprobs_go_cons_ok h
    obtain ⟨ih1, ih2⟩ := ih hg
    refine ⟨fun _ => by simp, fun j hj => ?_⟩
    cases j with
    | zero =>
      have h0 : 0 < r'.text_offset.length := by simpa using hj
      simpa using ih1 h0
    | succ j' =>
      simp only [List.getD_cons_succ]
      exact ih2 j' (by simpa using hj)

theorem create_logprobs_go_ok_of_lookups {t : Tokenizer} {ps : List (Nat × LogprobMap)}
    (hs : ∀ p ∈ ps, (lookupId p.2 p.1).isSome = true) :
    ∀ off, ∃ r, create_logprobs_go t ps off = .ok r := by
  induction ps with
  | nil => exact fun off => ⟨emptyLogprobs, rfl⟩
  | cons p rest ih =>
    obtain ⟨tid, m⟩ := p
    intro off
    have hsome : (lookupId m tid).isSome = true := hs (tid, m) (by simp)
    obtain ⟨lp, hl⟩ := Option.isSome_iff_exists.mp hsome
    obtain ⟨r', hg⟩ := ih (fun p hp => hs p (by simp [hp])) (off + (t tid).length)
    refine ⟨⟨off :: r'.text_offset, lp :: r'.token_logprobs, t tid :: r'.tokens,
      (m.map (fun p => (t p.1, p.2))) :: r'.top_logprobs⟩, ?_⟩
    simp only [create_logprobs_go]
    rw [hl, hg]

theorem create_logprobs_go_missing {t : Tokenizer} {ps : List (Nat × LogprobMap)}
    (hm : ∃ p ∈ ps, lookupId p.2 p.1 = none) :
    ∀ off, ∃ tid, create_logprobs_go t ps off = .error (.missingCandidate tid) := by
  induction ps with
  | nil => simp at hm
  | cons p rest ih =>
    obtain ⟨tid, m⟩ := p
    intro off
    cases hl : lookupId m tid with
    | none =>
      refine ⟨tid, ?_⟩
      simp only [create_logprobs_go]
      rw [hl]
    | some lp =>
      obtain ⟨q, hq, hqnone⟩ := hm
      rcases List.mem_cons.mp hq with rfl | hqrest
      · rw [hl] at hqnone; cases hqnone
      · obtain ⟨tid', hg⟩ := ih ⟨q, hqrest, hqnone⟩ (off + (t tid).length)
        refine ⟨tid', ?_⟩
        simp only [create_logprobs_go]
        rw [hl, hg]

theorem zip_getD_fst {l1 : List Nat} {l2 : List LogprobMap} {j : Nat}
    (h : j < (l1.zip l2).length) :
    ((l1.zip l2).getD j (0, [])).1 = l1.getD j 0 := by
  have h1 : j < l1.length := by rw [List.length_zip] at h; omega
  rw [List.getD_eq_getElem _ _ h, List.getD_eq_getElem _ _ h1, List.getElem_zip]

theorem zip_getD_snd {l1 : List Nat} {l2 : List LogprobMap} {j : Nat}
    (h : j < (l1.zip l2).length) :
    ((l1.zip l2).getD j (0, [])).2 = l2.getD j [] := by
  have h2 : j < l2.length := by rw [List.length_zip] at h; omega
  rw [List.getD_eq_getElem _ _ h, List.getD_eq_getElem _ _ h2, List.getElem_zip]

/-! ### Claims about `create_logprobs` -/

/-- C4: for every call to the logprobs builder with equal-length token-id and
logprob-map sequences that returns a record, `text_offset[0] = base_offset`
and, for every `i > 0`, `text_offset[i] - text_offset[i-1]` equals the length
of the tokenizer's display text for `token_ids[i-1]` (stated additively,
offsets being `Nat`). -/
theorem claim_C4_text_offset_deltas (tokenizer : Tokenizer) (token_ids : List Nat)
    (id_logprobs : List LogprobMap) (base_offset : Nat) (r : Logprobs)
    (_hlen : token_ids.length = id_logprobs.length)
    (hok : create_logprobs tokenizer token_ids id_logprobs base_offset = .ok r) :
    (0 < r.text_offset.length → r.text_offset.getD 0 0 = base_offset) ∧
    (∀ j, j + 1 < r.text_offset.length →
      r.text_offset.getD (j + 1) 0
        = r.text_offset.getD j 0 + (tokenizer (token_ids.getD j 0)).length) := by
  obtain ⟨h1, h2⟩ := create_logprobs_go_offsets hok
  refine ⟨h1, fun j hj => ?_⟩
  have hlen4 := create_logprobs_go_lengths hok
  have hjz : j < (token_ids.zip id_logprobs).length := by omega
  have htok : r.tokens.getD j "" = tokenizer (token_ids.getD j 0) := by
    rw [create_logprobs_go_tokens hok j (by omega), zip_getD_fst hjz]
  rw [h2 j hj, htok]

/-- C4 witness: a two-token call with base offset 7 satisfies the
hypotheses of `claim_C4_text_offset_deltas`. -/
theorem claim_C4_witness :
    (0 < (⟨[7, 9], [-5, -3], ["ab", "c"], [[("ab", -5)], [("c", -3)]]⟩ : Logprobs).text_offset.length →
      (⟨[7, 9], [-5, -3], ["ab", "c"], [[("ab", -5)], [("c", -3)]]⟩ : Logprobs).text_offset.getD 0 0 = 7) ∧
    (∀ j, j + 1 < (⟨[7, 9], [-5, -3], ["ab", "c"], [[("ab", -5)], [("c", -3)]]⟩ : Logprobs).text_offset.length →
      (⟨[7, 9], [-5, -3], ["ab", "c"], [[("ab", -5)], [("c", -3)]]⟩ : Logprobs).text_offset.getD (j + 1) 0
        = (⟨[7, 9], [-5, -3], ["ab", "c"], [[("ab", -5)], [("c", -3)]]⟩ : Logprobs).text_offset.getD j 0
          + (exTokenizer (([1, 2] : List Nat).getD j 0)).length) :=
  claim_C4_text_offset_deltas exTokenizer [1, 2] [[(1, -5)], [(2, -3)]] 7
    ⟨[7, 9], [-5, -3], ["ab", "c"], [[("ab", -5)], [("c", -3)]]⟩ (by decide) (by rfl)

/-- C5: for every position of a successful logprobs-builder call, the chosen
log-probability appended is `new_logprob_maps[i][new_token_ids[i]]`; and if
some position's chosen id is absent from its own candidate map, the builder
fails with `missingCandidate` (the classified image of the `KeyError` raised
by `id_logprob[token_id]`) rather than succeeding. -/
theorem claim_C5_chosen_logprob_and_missing_candidate (tokenizer : Tokenizer)
    (token_ids : List Nat) (id_logprobs : List LogprobMap) (base_offset : Nat) :
    (∀ r, create_logprobs tokenizer token_ids id_logprobs base_offset = .ok r →
      ∀ j, j < r.token_logprobs.length →
        lookupId (id_logprobs.getD j []) (token_ids.getD j 0)
          = some (r.token_logprobs.getD j 0)) ∧
    ((∃ p ∈ token_ids.zip id_logprobs, lookupId p.2 p.1 = none) →
      ∃ tid, create_logprobs tokenizer token_ids id_logprobs base_offset
        = .error (.missingCandidate tid)) := by
  constructor
  · intro r hok j hj
    have hjz : j < (token_ids.zip id_logprobs).length := by
      have := (create_logprobs_go_lengths hok).2.1
      omega
    rw [← zip_getD_fst hjz, ← zip_getD_snd hjz]
    exact create_logprobs_go_chosen hok j hj
  · intro hm
    exact create_logprobs_go_missing hm base_offset

/-- C5 witness: on a well-formed position the chosen logprob is looked up
from the map, and a position whose chosen id is missing makes the builder
fail with `missingCandidate`. -/
theorem claim_C5_witness :
    lookupId [(1, -5)] 1 = some (-5) ∧
    (∃ tid, create_logprobs exTokenizer [4] [[(9, -1)]] 0
      = .error (.missingCandidate tid)) :=
  ⟨(claim_C5_chosen_logprob_and_missing_candidate exTokenizer [1] [[(1, -5)]] 0).1
      ⟨[0], [-5], ["ab"], [[("ab", -5)]]⟩ (by rfl) 0 (by decide),
   (claim_C5_chosen_logprob_and_missing_candidate exTokenizer [4] [[(9, -1)]] 0).2
      (by decide)⟩

/-- C9: on empty inputs the logprobs builder returns the record with all four
sequences empty; being a pure function of its arguments, the call has no side
effects and cannot depend on prior calls. -/
theorem claim_C9_empty_input (tokenizer : Tokenizer) (base_offset : Nat) :
    create_logprobs tokenizer [] [] base_offset = .ok ⟨[], [], [], []⟩ := rfl

/-- C10: the builder never fails on a length mismatch between the token-id
and logprob-map sequences: `zip` truncates to the paired prefix, so whenever
every paired position's chosen id is present, the call succeeds and all four
returned sequences have length `min` of the two input lengths. -/
theorem claim_C10_zip_truncates_to_min (tokenizer : Tokenizer)
    (token_ids : List Nat) (id_logprobs : List LogprobMap) (base_offset : Nat)
    (hs : ∀ p ∈ token_ids.zip id_logprobs, (lookupId p.2 p.1).isSome = true) :
    ∃ r, create_logprobs tokenizer token_ids id_logprobs base_offset = .ok r ∧
      r.text_offset.length = min token_ids.length id_logprobs.length ∧
      r.token_logprobs.length = min token_ids.length id_logprobs.length ∧
      r.tokens.length = min token_ids.length id_logprobs.length ∧
      r.top_logprobs.length = min token_ids.length id_logprobs.length := by
  obtain ⟨r, hok⟩ := create_logprobs_go_ok_of_lookups hs base_offset
  obtain ⟨h1, h2, h3, h4⟩ := create_logprobs_go_lengths hok
  rw [List.length_zip] at h1 h2 h3 h4
  exact ⟨r, hok, h1, h2, h3, h4⟩

/-- C10 witness: three token ids against two candidate maps — the paired
prefix has length two and the call succeeds with all four sequences of
length two. -/
theorem claim_C10_witness :
    ∃ r, create_logprobs exTokenizer [1, 2, 3] [[(1, -5)], [(2, -3)]] 0 = .ok r ∧
      r.text_offset.length = min ([1, 2, 3] : List Nat).length [[(1, -5)], [(2, -3)]].length ∧
      r.token_logprobs.length = min ([1, 2, 3] : List Nat).length [[(1, -5)], [(2, -3)]].length ∧
      r.tokens.length = min ([1, 2, 3] : List Nat).length [[(1, -5)], [(2, -3)]].length ∧
      r.top_logprobs.length = min ([1, 2, 3] : List Nat).length [[(1, -5)], [(2, -3)]].length :=
  claim_C10_zip_truncates_to_min exTokenizer [1, 2, 3] [[(1, -5)], [(2, -3)]] 0 (by decide)

/-! ### Lemmas for the non-streaming consume loop -/

theorem consumeLoop_disconnect {d : Nat → Bool} {l : List RequestOutput} :
    ∀ k acc, (∃ j, j < l.length ∧ d (k + j) = true) → consumeLoop d k acc l = none := by
  induction l with
  | nil =>
    intro k acc h
    obtain ⟨j, hj, _⟩ := h
    simp at hj
  | cons a l ih =>
    intro k acc ⟨j, hj, hd⟩
    by_cases hk : d k = true
    · simp [consumeLoop, hk]
    · cases j with
      | zero => rw [Nat.add_zero] at hd; exact absurd hd hk
      | succ j' =>
        have hrec := ih (k + 1) (some a) ⟨j', by simpa using hj, by
          have : k + 1 + j' = k + (j' + 1) := by omega
          rw [this]; exact hd⟩
        simp only [consumeLoop, hk]
        simpa [Bool.not_eq_true] using hrec

theorem consumeLoop_no_disconnect {d : Nat → Bool} {l : List RequestOutput} :
    ∀ k acc, (∀ j, j < l.length → d (k + j) = false) →
      consumeLoop d k acc l = some (l.getLast?.or acc) := by
  induction l with
  | nil => intro k acc _; simp [consumeLoop]
  | cons a l ih =>
    intro k acc hd
    have hk : d k = false := by simpa using hd 0 (by simp)
    have hrec := ih (k + 1) (some a) (fun j hj => by
      have : k + 1 + j = k + (j + 1) := by omega
      rw [this]
      exact hd (j + 1) (by simpa using hj))
    simp only [consumeLoop, hk]
    rw [hrec, List.getLast?_cons]
    cases hlast : l.getLast? <;> simp [hlast]

/-! ### Claims about the non-streaming path -/

/-- C7: in the non-streaming path, a disconnect observed at some check makes
the controller issue exactly one abort keyed by the request id and terminate
with no response; with no disconnect observed, no abort is issued and the
response is built from the last snapshot. -/
theorem claim_C7_disconnect_abort (tokenizer : Tokenizer) (logprobsRequested : Bool)
    (request_id model : String) (disconnected : Nat → Bool)
    (snapshots : List RequestOutput) :
    ((∃ k, k < snapshots.length ∧ disconnected k = true) →
      create_completion_nonstream tokenizer logprobsRequested request_id model
        disconnected snapshots = .ok ⟨[request_id], none⟩) ∧
    ((∀ k, k < snapshots.length → disconnected k = false) →
      ∀ final_res resp, snapshots.getLast? = some final_res →
        buildCompletion tokenizer logprobsRequested request_id model final_res = .ok resp →
        create_completion_nonstream tokenizer logprobsRequested request_id model
          disconnected snapshots = .ok ⟨[], some resp⟩) := by
  constructor
  · intro ⟨k, hk, hd⟩
    have h0 := consumeLoop_disconnect (d := disconnected) (l := snapshots) 0 none
      ⟨k, hk, by simpa using hd⟩
    simp only [create_completion_nonstream, h0]
  · intro hnd final_res resp hlast hbuild
    have h0 := consumeLoop_no_disconnect (d := disconnected) (l := snapshots) 0 none
      (fun j hj => by simpa using hnd j hj)
    rw [hlast] at h0
    have h0' : consumeLoop disconnected 0 none snapshots = some (some final_res) := h0
    simp only [create_completion_nonstream, h0', hbuild]

/-- C7 witness: with two snapshots, a disconnect at the second check yields
one abort keyed by the request id and no response; with no disconnect the
response is built from the last snapshot. -/
theorem claim_C7_witness :
    create_completion_nonstream exTokenizer false "rid" "m"
      (fun k => k == 1) [exSnap0, exSnap1] = .ok ⟨["rid"], none⟩ ∧
    create_completion_nonstream exTokenizer false "rid" "m"
      (fun _ => false) [exSnap0, exSnap1]
      = .ok ⟨[], some ⟨"rid", [⟨0, strOf "Hello, world!", some "stop", none⟩], "m",
                       ⟨2, 2, 4⟩⟩⟩ :=
  ⟨(claim_C7_disconnect_abort exTokenizer false "rid" "m"
      (fun k => k == 1) [exSnap0, exSnap1]).1 (by decide),
   (claim_C7_disconnect_abort exTokenizer false "rid" "m"
      (fun _ => false) [exSnap0, exSnap1]).2 (by decide) exSnap1
      ⟨"rid", [⟨0, strOf "Hello, world!", some "stop", none⟩], "m", ⟨2, 2, 4⟩⟩
      (by rfl) (by rfl)⟩

/-- C8: the usage record of every non-streaming response satisfies
`prompt_tokens = len(prompt_token_ids)`,
`completion_tokens = sum(len(output.token_ids))` over the final choices, and
`total_tokens = prompt_tokens + completion_tokens`. -/
theorem claim_C8_usage_accounting (tokenizer : Tokenizer) (logprobsRequested : Bool)
    (request_id model : String) (final_res : RequestOutput) (resp : Completion)
    (hok : buildCompletion tokenizer logprobsRequested request_id model final_res
      = .ok resp) :
    resp.usage.prompt_tokens = final_res.prompt_token_ids.length ∧
    resp.usage.completion_tokens
      = (final_res.outputs.map (fun o => o.token_ids.length)).sum ∧
    resp.usage.total_tokens = resp.usage.prompt_tokens + resp.usage.completion_tokens := by
  unfold buildCompletion at hok
  cases hb : buildChoices tokenizer logprobsRequested final_res.outputs with
  | error e => rw [hb] at hok; cases hok
  | ok choices =>
    rw [hb] at hok
    cases hok
    simp

/-- C8 witness: the final snapshot `exSnap1` (two prompt tokens, one choice
with two generated tokens) yields usage `⟨2, 2, 4⟩`. -/
theorem claim_C8_witness :
    (⟨"rid", [⟨0, strOf "Hello, world!", some "stop", none⟩], "m",
      ⟨2, 2, 4⟩⟩ : Completion).usage.prompt_tokens = exSnap1.prompt_token_ids.length ∧
    (⟨"rid", [⟨0, strOf "Hello, world!", some "stop", none⟩], "m",
      ⟨2, 2, 4⟩⟩ : Completion).usage.completion_tokens
      = (exSnap1.outputs.map (fun o => o.token_ids.length)).sum ∧
    (⟨"rid", [⟨0, strOf "Hello, world!", some "stop", none⟩], "m",
      ⟨2, 2, 4⟩⟩ : Completion).usage.total_tokens
      = (⟨"rid", [⟨0, strOf "Hello, world!", some "stop", none⟩], "m",
          ⟨2, 2, 4⟩⟩ : Completion).usage.prompt_tokens
        + (⟨"rid", [⟨0, strOf "Hello, world!", some "stop", none⟩], "m",
            ⟨2, 2, 4⟩⟩ : Completion).usage.completion_tokens :=
  claim_C8_usage_accounting exTokenizer false "rid" "m" exSnap1
    ⟨"rid", [⟨0, strOf "Hello, world!", some "stop", none⟩], "m", ⟨2, 2, 4⟩⟩ (by rfl)

/-! ### Claim about the endpoint's early rejections -/

/-- C6: a request with truthy `echo` or truthy `suffix` is rejected with
HTTP 400 before any generation work: `engine.generate` is never called and
no snapshot is consumed. -/
theorem claim_C6_echo_suffix_rejected (request : CompletionCreateParams)
    (request_id : String) (env : EngineEnv)
    (h : request.echo = true ∨ truthySuffix request.suffix = true) :
    ∃ detail, create_completion request request_id env
      = (.httpError 400 detail, ⟨false, 0⟩) := by
  by_cases he : request.echo
  · exact ⟨"echo is not currently supported", by simp [create_completion, he]⟩
  · rcases h with h | h
    · exact absurd h he
    · exact ⟨"suffix is not currently supported", by simp [create_completion, he, h]⟩

/-- C6 witness: a request with `echo = true` (and a populated environment)
is rejected with a 400 and an untouched effect trace. -/
theorem claim_C6_witness :
    ∃ detail, create_completion ⟨"m", 1, true, none, false, none, none⟩ "rid"
      ⟨exTokenizer, [exSnap0, exSnap1], true, none, fun _ => false⟩
      = (.httpError 400 detail, ⟨false, 0⟩) :=
  claim_C6_echo_suffix_rejected ⟨"m", 1, true, none, false, none, none⟩ "rid"
    ⟨exTokenizer, [exSnap0, exSnap1], true, none, fun _ => false⟩ (Or.inl rfl)

/-! ### Structure of the streaming generator's output -/

theorem processOutput_shape {t : Tokenizer} {lp : Bool} {st : StreamState} {o : Output}
    {chunks : List WireChunk} {st' : StreamState}
    (h : processOutput t lp st o = .ok (chunks, st')) :
    o.index < st.previous_texts.length ∧
    o.index < st.previous_num_tokens.length ∧
    st'.previous_texts = st.previous_texts.set o.index (stripRepl o.text) ∧
    st'.previous_num_tokens = st.previous_num_tokens.set o.index o.token_ids.length ∧
    ∃ lps, chunks =
      ⟨o.index, (stripRepl o.text).drop (st.previous_texts.getD o.index []).length,
       "stop", lps, false, false⟩ ::
      (if o.finish_reason.isSome then
        [⟨o.index, (stripRepl o.text).drop (st.previous_texts.getD o.index []).length,
          "stop", (if lp then some emptyLogprobs else none), true, true⟩]
       else []) := by
  by_cases hb : o.index < st.previous_texts.length ∧ o.index < st.previous_num_tokens.length
  · obtain ⟨hb1, hb2⟩ := hb
    cases hl : lp with
    | true =>
      rw [hl] at h
      simp only [processOutput, hb1, hb2, and_self, if_true] at h
      cases hc : create_logprobs t
          (o.token_ids.drop (st.previous_num_tokens.getD o.index 0))
          (o.logprobs.drop (st.previous_num_tokens.getD o.index 0))
          (st.previous_texts.getD o.index []).length with
      | error e => rw [hc] at h; cases h
      | ok r =>
        rw [hc] at h
        by_cases hf : o.finish_reason.isSome
        · simp only [hf, if_true] at h
          injection h with hpair
          injection hpair with h1 h2
          subst h1; subst h2
          exact ⟨hb1, hb2, rfl, rfl, some r, by simp [hf]⟩
        · simp only [hf, Bool.false_eq_true, if_false] at h
          injection h with hpair
          injection hpair with h1 h2
          subst h1; subst h2
          exact ⟨hb1, hb2, rfl, rfl, some r, by simp [hf]⟩
    | false =>
      rw [hl] at h
      simp only [processOutput, hb1, hb2, and_self, if_true, Bool.false_eq_true, if_false] at h
      by_cases hf : o.finish_reason.isSome
      · simp only [hf, if_true] at h
        injection h with hpair
        injection hpair with h1 h2
        subst h1; subst h2
        exact ⟨hb1, hb2, rfl, rfl, none, by simp [hf]⟩
      · simp only [hf, Bool.false_eq_true, if_false] at h
        injection h with hpair
        injection hpair with h1 h2
        subst h1; subst h2
        exact ⟨hb1, hb2, rfl, rfl, none, by simp [hf]⟩
  · simp only [processOutput, hb, if_false] at h
    cases h

theorem processOutputs_cons_inv {t : Tokenizer} {lp : Bool} {st : StreamState}
    {o : Output} {rest : List Output} {chunks : List WireChunk} {st' : StreamState}
    (h : processOutputs t lp st (o :: rest) = .ok (chunks, st')) :
    ∃ cs st1 cs', processOutput t lp st o = .ok (cs, st1) ∧
      processOutputs t lp st1 rest = .ok (cs', st') ∧ chunks = cs ++ cs' := by
  simp only [processOutputs] at h
  cases h1 : processOutput t lp st o with
  | error e => rw [h1] at h; dsimp only at h; cases h
  | ok p =>
    obtain ⟨cs, st1⟩ := p
    rw [h1] at h
    dsimp only at h
    cases h2 : processOutputs t lp st1 rest with
    | error e => rw [h2] at h; dsimp only at h; cases h
    | ok q =>
      obtain ⟨cs', st2⟩ := q
      rw [h2] at h
      dsimp only at h
      injection h with hpair
      injection hpair with ha hb
      exact ⟨cs, st1, cs', rfl, by rw [h2, hb], ha.symm⟩

theorem processOutputs_append {t : Tokenizer} {lp : Bool} (l1 l2 : List Output) :
    ∀ st, processOutputs t lp st (l1 ++ l2) =
      match processOutputs t lp st l1 with
      | .error e => .error e
      | .ok (cs, st1) =>
        match processOutputs t lp st1 l2 with
        | .error e => .error e
        | .ok (cs', st2) => .ok (cs ++ cs', st2) := by
  induction l1 with
  | nil =>
    intro st
    simp only [List.nil_append, processOutputs]
    cases processOutputs t lp st l2 with
    | error e => rfl
    | ok q => rfl
  | cons o rest ih =>
    intro st
    simp only [List.cons_append, processOutputs]
    cases h1 : processOutput t lp st o with
    | error e => rfl
    | ok p =>
      obtain ⟨cs, st1⟩ := p
      dsimp only
      rw [List.append_eq, ih st1]
      cases h2 : processOutputs t lp st1 rest with
      | error e => rfl
      | ok q =>
        obtain ⟨cs', st2⟩ := q
        dsimp only
        cases h3 : processOutputs t lp st2 l2 with
        | error e => rfl
        | ok r =>
          obtain ⟨cs'', st3⟩ := r
          dsimp only
          rw [List.append_assoc]

theorem streamSnapshots_eq_flat {t : Tokenizer} {lp : Bool}
    (snapshots : List RequestOutput) :
    ∀ st, streamSnapshots t lp st snapshots
      = processOutputs t lp st (flatOutputs snapshots) := by
  induction snapshots with
  | nil => intro st; rfl
  | cons res rest ih =>
    intro st
    have hflat : flatOutputs (res :: rest) = res.outputs ++ flatOutputs rest := by
      simp [flatOutputs]
    rw [hflat, processOutputs_append]
    simp only [streamSnapshots]
    cases h1 : processOutputs t lp st res.outputs with
    | error e => rfl
    | ok p =>
      obtain ⟨cs, st1⟩ := p
      dsimp only
      rw [ih st1]

theorem deltaConcat_append (i : Nat) (cs cs' : List WireChunk) :
    deltaConcat i (cs ++ cs') = deltaConcat i cs ++ deltaConcat i cs' := by
  simp [deltaConcat, List.filter_append]

theorem replicate_getD_nil (n i : Nat) :
    (List.replicate n ([] : Str)).getD i [] = [] := by
  rcases Nat.lt_or_ge i n with h | h
  · rw [List.getD_eq_getElem _ _ (by simpa using h), List.getElem_replicate]
  · exact List.getD_eq_default _ _ (by simpa using h)

/-- Per-choice invariant of the streaming loop: when the stripped cumulative
texts of choice `i` extend one another starting from the tracked previous
text, the previous text followed by the concatenated deltas of choice `i`'s
content chunks equals the last cumulative text, which is also the final
tracked state. -/
theorem processOutputs_delta_invariant {t : Tokenizer} {lp : Bool} (i : Nat)
    (os : List Output) :
    ∀ (st : StreamState) (chunks : List WireChunk) (st' : StreamState),
      processOutputs t lp st os = .ok (chunks, st') →
      prefixChainB (st.previous_texts.getD i []) (projTexts i os) = true →
      st.previous_texts.getD i [] ++ deltaConcat i chunks
          = (projTexts i os).getLastD (st.previous_texts.getD i []) ∧
      st'.previous_texts.getD i []
          = (projTexts i os).getLastD (st.previous_texts.getD i []) := by
  induction os with
  | nil =>
    intro st chunks st' h _
    simp only [processOutputs] at h
    injection h with hpair
    injection hpair with ha hb
    subst ha; subst hb
    simp [projTexts, deltaConcat]
  | cons o rest ih =>
    intro st chunks st' h hchain
    obtain ⟨cs, st1, cs', h1, h2, rfl⟩ := processOutputs_cons_inv h
    obtain ⟨hb1, _, hst1t, _, lps, hcs⟩ := processOutput_shape h1
    by_cases hio : o.index = i
    · subst hio
      have hproj : projTexts o.index (o :: rest)
          = stripRepl o.text :: projTexts o.index rest := by
        simp [projTexts]
      rw [hproj] at hchain ⊢
      simp only [prefixChainB, Bool.and_eq_true] at hchain
      obtain ⟨hpre, hchain'⟩ := hchain
      have hpre' : st.previous_texts.getD o.index [] <+: stripRepl o.text :=
        List.isPrefixOf_iff_prefix.mp hpre
      have hst1 : st1.previous_texts.getD o.index [] = stripRepl o.text := by
        rw [hst1t]; exact getD_set_self _ _ _ _ hb1
      have hdcs : deltaConcat o.index cs
          = (stripRepl o.text).drop (st.previous_texts.getD o.index []).length := by
        by_cases hf : o.finish_reason.isSome <;>
          simp [hcs, hf, deltaConcat]
      obtain ⟨ihA, ihB⟩ := ih st1 cs' st' h2 (by rw [hst1]; exact hchain')
      rw [hst1] at ihA ihB
      constructor
      · rw [deltaConcat_append, hdcs, List.getLastD_cons, ← List.append_assoc,
          prefix_append_drop hpre', ihA]
      · rw [List.getLastD_cons, ihB]
    · have hioB : (o.index == i) = false := by simpa using hio
      have hproj : projTexts i (o :: rest) = projTexts i rest := by
        simp [projTexts, List.filter_cons, hioB]
      have hst1 : st1.previous_texts.getD i [] = st.previous_texts.getD i [] := by
        rw [hst1t]; exact getD_set_ne _ _ _ _ _ hio
      have hdcs : deltaConcat i cs = [] := by
        by_cases hf : o.finish_reason.isSome <;>
          simp [hcs, hf, deltaConcat, hioB]
      obtain ⟨ihA, ihB⟩ := ih st1 cs' st' h2 (by rw [hst1, ← hproj]; exact hchain)
      rw [hst1] at ihA ihB
      rw [hproj]
      exact ⟨by rw [deltaConcat_append, hdcs, List.nil_append, ihA], ihB⟩

theorem find?_eq_filter_head {α : Type} (f : α → Bool) (l : List α) :
    l.find? f = (l.filter f).head? := by
  induction l with
  | nil => rfl
  | cons a l ih =>
    by_cases hf : f a
    · rw [List.find?_cons_of_pos _ hf, List.filter_cons_of_pos hf, List.head?_cons]
    · rw [List.find?_cons_of_neg _ hf, List.filter_cons_of_neg hf, ih]

theorem generate_stream_inv {t : Tokenizer} {lp : Bool} {n : Nat}
    {snapshots : List RequestOutput} {chunks : List WireChunk}
    (h : generate_completion_stream_generator t lp n snapshots = .ok chunks) :
    ∃ st', streamSnapshots t lp ⟨List.replicate n [], List.replicate n 0⟩ snapshots
      = .ok (chunks, st') := by
  simp only [generate_completion_stream_generator] at h
  cases h1 : streamSnapshots t lp ⟨List.replicate n [], List.replicate n 0⟩ snapshots with
  | error e => rw [h1] at h; cases h
  | ok p =>
    obtain ⟨cs, st'⟩ := p
    rw [h1] at h
    injection h with ha
    exact ⟨st', by rw [ha]⟩

theorem nonstream_ok_inv {t : Tokenizer} {lp : Bool} {rid model : String}
    {snapshots : List RequestOutput} {resp : Completion}
    (h : create_completion_nonstream t lp rid model (fun _ => false) snapshots
      = .ok ⟨[], some resp⟩) :
    ∃ fin, snapshots.getLast? = some fin ∧
      buildCompletion t lp rid model fin = .ok resp := by
  have h0 := consumeLoop_no_disconnect (d := fun _ => false) (l := snapshots) 0 none
    (fun _ _ => rfl)
  simp only [create_completion_nonstream] at h
  rw [h0] at h
  cases hl : snapshots.getLast? with
  | none => rw [hl] at h; dsimp only [Option.or] at h; cases h
  | some fin =>
    rw [hl] at h
    dsimp only [Option.or] at h
    cases hb : buildCompletion t lp rid model fin with
    | error e => rw [hb] at h; dsimp only at h; cases h
    | ok resp' =>
      rw [hb] at h
      dsimp only at h
      injection h with hpair
      injection hpair with _ hresp
      injection hresp with hresp'
      exact ⟨fin, rfl, by rw [hb, hresp']⟩

theorem buildChoices_cons_inv {t : Tokenizer} {lp : Bool} {o : Output}
    {rest : List Output} {cs : List CompletionChoice}
    (h : buildChoices t lp (o :: rest) = .ok cs) :
    ∃ lpo cs', cs = ⟨o.index, stripRepl o.text, o.finish_reason, lpo⟩ :: cs' ∧
      buildChoices t lp rest = .ok cs' := by
  cases hl : lp with
  | true =>
    rw [hl] at h
    simp only [buildChoices, if_true] at h
    cases hc : create_logprobs t o.token_ids o.logprobs 0 with
    | error e => rw [hc] at h; dsimp only at h; cases h
    | ok r =>
      rw [hc] at h
      dsimp only at h
      cases h2 : buildChoices t true rest with
      | error e => rw [h2] at h; dsimp only at h; cases h
      | ok cs' =>
        rw [h2] at h
        dsimp only at h
        injection h with ha
        exact ⟨some r, cs', ha.symm, rfl⟩
  | false =>
    rw [hl] at h
    simp only [buildChoices, Bool.false_eq_true, if_false] at h
    cases h2 : buildChoices t false rest with
    | error e => rw [h2] at h; dsimp only at h; cases h
    | ok cs' =>
      rw [h2] at h
      dsimp only at h
      injection h with ha
      exact ⟨none, cs', ha.symm, rfl⟩

theorem buildChoices_find {t : Tokenizer} {lp : Bool} (i : Nat) :
    ∀ (os : List Output) (cs : List CompletionChoice),
      buildChoices t lp os = .ok cs →
      ∀ o, os.find? (fun o => o.index == i) = some o →
        ∃ ch, cs.find? (fun c => c.index == i) = some ch ∧
          ch.text = stripRepl o.text ∧ ch.index = o.index ∧
          ch.finish_reason = o.finish_reason := by
  intro os
  induction os with
  | nil => intro cs _ o ho; cases ho
  | cons o0 rest ih =>
    intro cs h o ho
    obtain ⟨lpo, cs', rfl, h2⟩ := buildChoices_cons_inv h
    by_cases hbeq : (o0.index == i) = true
    · have hfc : (o0 :: rest).find? (fun o => o.index == i) = some o0 :=
        List.find?_cons_of_pos _ hbeq
      rw [hfc] at ho
      injection ho with ho'
      subst ho'
      have hfc2 : ((⟨o0.index, stripRepl o0.text, o0.finish_reason, lpo⟩ :
            CompletionChoice) :: cs').find? (fun c => c.index == i)
          = some ⟨o0.index, stripRepl o0.text, o0.finish_reason, lpo⟩ :=
        List.find?_cons_of_pos _ hbeq
      exact ⟨_, hfc2, rfl, rfl, rfl⟩
    · have hfc : (o0 :: rest).find? (fun o => o.index == i)
          = rest.find? (fun o => o.index == i) :=
        List.find?_cons_of_neg _ hbeq
      rw [hfc] at ho
      obtain ⟨ch, hch, hrest⟩ := ih cs' h2 o ho
      have hfc2 : ((⟨o0.index, stripRepl o0.text, o0.finish_reason, lpo⟩ :
            CompletionChoice) :: cs').find? (fun c => c.index == i)
          = cs'.find? (fun c => c.index == i) :=
        List.find?_cons_of_neg _ hbeq
      exact ⟨ch, by rw [hfc2]; exact hch, hrest⟩

theorem buildCompletion_inv {t : Tokenizer} {lp : Bool} {rid model : String}
    {fin : RequestOutput} {resp : Completion}
    (h : buildCompletion t lp rid model fin = .ok resp) :
    ∃ cs, buildChoices t lp fin.outputs = .ok cs ∧ resp.choices = cs := by
  simp only [buildCompletion] at h
  cases hb : buildChoices t lp fin.outputs with
  | error e => rw [hb] at h; dsimp only at h; cases h
  | ok cs =>
    rw [hb] at h
    dsimp only at h
    injection h with ha
    exact ⟨cs, rfl, by rw [← ha]⟩

/-! ### Claims about the streaming generator -/

/-- C3: one iteration of the streaming loop computes the delta text as the
suffix of the stripped cumulative text starting at `len(previous_text)`,
slices the new token ids and logprob maps from `previous_token_count`, passes
`base_offset = len(previous_text)` (all three read from the state *before*
the update), and only then sets `previous_text`/`previous_token_count` to the
cumulative values — exactly one `set` each, per output. -/
theorem claim_C3_delta_from_previous_state (tokenizer : Tokenizer)
    (logprobsRequested : Bool) (st : StreamState) (o : Output)
    (chunks : List WireChunk) (st' : StreamState)
    (hok : processOutput tokenizer logprobsRequested st o = .ok (chunks, st')) :
    (∃ c rest, chunks = c :: rest ∧ c.terminal = false ∧ c.index = o.index ∧
      c.text = (stripRepl o.text).drop (st.previous_texts.getD o.index []).length ∧
      c.logprobs = (if logprobsRequested then
          (create_logprobs tokenizer
            (o.token_ids.drop (st.previous_num_tokens.getD o.index 0))
            (o.logprobs.drop (st.previous_num_tokens.getD o.index 0))
            (st.previous_texts.getD o.index []).length).toOption
        else none)) ∧
    st'.previous_texts = st.previous_texts.set o.index (stripRepl o.text) ∧
    st'.previous_num_tokens = st.previous_num_tokens.set o.index o.token_ids.length := by
  by_cases hb : o.index < st.previous_texts.length ∧ o.index < st.previous_num_tokens.length
  · cases hl : logprobsRequested with
    | true =>
      rw [hl] at hok
      simp only [processOutput, hb, if_true] at hok
      cases hc : create_logprobs tokenizer
          (o.token_ids.drop (st.previous_num_tokens.getD o.index 0))
          (o.logprobs.drop (st.previous_num_tokens.getD o.index 0))
          (st.previous_texts.getD o.index []).length with
      | error e => rw [hc] at hok; cases hok
      | ok r =>
        rw [hc] at hok
        by_cases hf : o.finish_reason.isSome
        · simp only [hf, if_true] at hok
          injection hok with hpair
          injection hpair with h1 h2
          subst h1; subst h2
          exact ⟨⟨_, _, rfl, rfl, rfl, rfl, by simp [Except.toOption, hc]⟩, rfl, rfl⟩
        · simp only [hf, Bool.false_eq_true, if_false] at hok
          injection hok with hpair
          injection hpair with h1 h2
          subst h1; subst h2
          exact ⟨⟨_, _, rfl, rfl, rfl, rfl, by simp [Except.toOption, hc]⟩, rfl, rfl⟩
    | false =>
      rw [hl] at hok
      simp only [processOutput, hb, if_true, Bool.false_eq_true, if_false] at hok
      by_cases hf : o.finish_reason.isSome
      · simp only [hf, if_true] at hok
        injection hok with hpair
        injection hpair with h1 h2
        subst h1; subst h2
        exact ⟨⟨_, _, rfl, rfl, rfl, rfl, by simp⟩, rfl, rfl⟩
      · simp only [hf, Bool.false_eq_true, if_false] at hok
        injection hok with hpair
        injection hpair with h1 h2
        subst h1; subst h2
        exact ⟨⟨_, _, rfl, rfl, rfl, rfl, by simp⟩, rfl, rfl⟩
  · simp only [processOutput, hb, if_false] at hok
    cases hok

/-- C3 witness: processing the final snapshot's output for choice 0 from the
state left by the first snapshot slices from the old state and then updates
it to the cumulative values. -/
theorem claim_C3_witness :
    (∃ c rest,
      ([⟨0, strOf " world!", "stop", some ⟨[6], [-2], ["c"], [[("c", -2)]]⟩, false, false⟩,
        ⟨0, strOf " world!", "stop", some emptyLogprobs, true, true⟩] : List WireChunk)
        = c :: rest ∧ c.terminal = false ∧ c.index = exOut1.index ∧
      c.text = (stripRepl exOut1.text).drop
        ((⟨[strOf "Hello,"], [1]⟩ : StreamState).previous_texts.getD exOut1.index []).length ∧
      c.logprobs = (if true then
          (create_logprobs exTokenizer
            (exOut1.token_ids.drop
              ((⟨[strOf "Hello,"], [1]⟩ : StreamState).previous_num_tokens.getD exOut1.index 0))
            (exOut1.logprobs.drop
              ((⟨[strOf "Hello,"], [1]⟩ : StreamState).previous_num_tokens.getD exOut1.index 0))
            ((⟨[strOf "Hello,"], [1]⟩ : StreamState).previous_texts.getD exOut1.index []).length).toOption
        else none)) ∧
    (⟨[strOf "Hello, world!"], [2]⟩ : StreamState).previous_texts
      = (⟨[strOf "Hello,"], [1]⟩ : StreamState).previous_texts.set exOut1.index (stripRepl exOut1.text) ∧
    (⟨[strOf "Hello, world!"], [2]⟩ : StreamState).previous_num_tokens
      = (⟨[strOf "Hello,"], [1]⟩ : StreamState).previous_num_tokens.set exOut1.index exOut1.token_ids.length :=
  claim_C3_delta_from_previous_state exTokenizer true ⟨[strOf "Hello,"], [1]⟩ exOut1
    [⟨0, strOf " world!", "stop", some ⟨[6], [-2], ["c"], [[("c", -2)]]⟩, false, false⟩,
     ⟨0, strOf " world!", "stop", some emptyLogprobs, true, true⟩]
    ⟨[strOf "Hello, world!"], [2]⟩ (by rfl)

/-- Each terminal chunk for choice `i` corresponds to exactly one output of
choice `i` carrying a finish reason. -/
theorem processOutputs_terminal_count {t : Tokenizer} {lp : Bool} (i : Nat)
    (os : List Output) :
    ∀ (st : StreamState) (chunks : List WireChunk) (st' : StreamState),
      processOutputs t lp st os = .ok (chunks, st') →
      (terminalChunks i chunks).length = (finishingOutputs i os).length := by
  induction os with
  | nil =>
    intro st chunks st' h
    simp only [processOutputs] at h
    injection h with hpair
    injection hpair with ha _
    subst ha
    simp [terminalChunks, finishingOutputs]
  | cons o rest ih =>
    intro st chunks st' h
    obtain ⟨cs, st1, cs', h1, h2, rfl⟩ := processOutputs_cons_inv h
    obtain ⟨_, _, _, _, lps, hcs⟩ := processOutput_shape h1
    have hrest := ih st1 cs' st' h2
    subst hcs
    simp only [terminalChunks, finishingOutputs, List.filter_append,
      List.length_append, List.filter_cons] at hrest ⊢
    by_cases hf : o.finish_reason.isSome <;> by_cases hbeq : (o.index == i) = true <;>
      simp [hf, hbeq, hrest, Nat.add_comm]

/-- Every chunk's serialization mode matches its yield site (`exclude_none`
exactly on the terminal yield), and a terminal chunk carries the explicitly
empty logprob record when logprobs were requested, `none` otherwise. -/
theorem processOutputs_chunk_props {t : Tokenizer} {lp : Bool} (os : List Output) :
    ∀ (st : StreamState) (chunks : List WireChunk) (st' : StreamState),
      processOutputs t lp st os = .ok (chunks, st') →
      ∀ c ∈ chunks, c.exclude_none = c.terminal ∧
        (c.terminal = true → c.logprobs = (if lp then some emptyLogprobs else none)) := by
  induction os with
  | nil =>
    intro st chunks st' h
    simp only [processOutputs] at h
    injection h with hpair
    injection hpair with ha _
    subst ha
    intro c hc
    cases hc
  | cons o rest ih =>
    intro st chunks st' h
    obtain ⟨cs, st1, cs', h1, h2, rfl⟩ := processOutputs_cons_inv h
    obtain ⟨_, _, _, _, lps, hcs⟩ := processOutput_shape h1
    intro c hc
    rcases List.mem_append.mp hc with hin | hin
    · subst hcs
      rcases List.mem_cons.mp hin with rfl | hin'
      · exact ⟨rfl, by intro hterm; cases hterm⟩
      · by_cases hf : o.finish_reason.isSome
        · rw [if_pos hf] at hin'
          rcases List.mem_cons.mp hin' with rfl | hin''
          · exact ⟨rfl, fun _ => rfl⟩
          · cases hin''
        · rw [if_neg hf] at hin'
          cases hin'
    · exact ih st1 cs' st' h2 c hin

/-- A terminal chunk only ever appears immediately after its own content
chunk, with the same choice index and the same delta text. -/
theorem processOutputs_adjacency {t : Tokenizer} {lp : Bool} (os : List Output) :
    ∀ (st : StreamState) (chunks : List WireChunk) (st' : StreamState),
      processOutputs t lp st os = .ok (chunks, st') →
      ∀ k c, chunks[k]? = some c → c.terminal = true →
        ∃ j p, k = j + 1 ∧ chunks[j]? = some p ∧ p.terminal = false ∧
          p.index = c.index ∧ p.text = c.text := by
  induction os with
  | nil =>
    intro st chunks st' h
    simp only [processOutputs] at h
    injection h with hpair
    injection hpair with ha _
    subst ha
    intro k c hk
    simp at hk
  | cons o rest ih =>
    intro st chunks st' h
    obtain ⟨cs, st1, cs', h1, h2, rfl⟩ := processOutputs_cons_inv h
    obtain ⟨_, _, _, _, lps, hcs⟩ := processOutput_shape h1
    subst hcs
    by_cases hf : o.finish_reason.isSome
    · rw [if_pos hf]
      simp only [List.cons_append, List.nil_append]
      intro k c hk hterm
      match k with
      | 0 =>
        rw [List.getElem?_cons_zero] at hk
        injection hk with hk'
        rw [← hk'] at hterm
        cases hterm
      | 1 =>
        rw [List.getElem?_cons_succ, List.getElem?_cons_zero] at hk
        injection hk with hk'
        refine ⟨0, _, rfl, List.getElem?_cons_zero, rfl, ?_, ?_⟩ <;> rw [← hk']
      | (j'' + 2) =>
        rw [List.getElem?_cons_succ, List.getElem?_cons_succ] at hk
        obtain ⟨j', p, hj, hp, hpt, hpi, hptx⟩ := ih st1 cs' st' h2 j'' c hk hterm
        exact ⟨j' + 2, p, by omega, by
          rw [List.getElem?_cons_succ, List.getElem?_cons_succ]; exact hp, hpt, hpi, hptx⟩
    · rw [if_neg hf]
      simp only [List.cons_append, List.nil_append]
      intro k c hk hterm
      match k with
      | 0 =>
        rw [List.getElem?_cons_zero] at hk
        injection hk with hk'
        rw [← hk'] at hterm
        cases hterm
      | (j'' + 1) =>
        rw [List.getElem?_cons_succ] at hk
        obtain ⟨j', p, hj, hp, hpt, hpi, hptx⟩ := ih st1 cs' st' h2 j'' c hk hterm
        exact ⟨j' + 1, p, by omega, by
          rw [List.getElem?_cons_succ]; exact hp, hpt, hpi, hptx⟩

/-- C1: for every snapshot sequence whose per-choice stripped cumulative
texts grow monotonically (each extends the previous), the concatenation of
the delta texts of choice `i`'s content chunks (terminal chunk excluded)
emitted by the streaming generator equals the `full_text` the non-streaming
aggregation produces for that choice from the same snapshot sequence. -/
theorem claim_C1_stream_deltas_equal_full_text (tokenizer : Tokenizer)
    (logprobsRequested : Bool) (n i : Nat) (snapshots : List RequestOutput)
    (fin : RequestOutput) (chunks : List WireChunk) (resp : Completion)
    (request_id model : String)
    (hstream : generate_completion_stream_generator tokenizer logprobsRequested n
      snapshots = .ok chunks)
    (hagg : create_completion_nonstream tokenizer logprobsRequested request_id model
      (fun _ => false) snapshots = .ok ⟨[], some resp⟩)
    (hlast : snapshots.getLast? = some fin)
    (hone : (fin.outputs.filter (fun o => o.index == i)).length = 1)
    (hchain : prefixChainB [] (projTexts i (flatOutputs snapshots)) = true) :
    ∃ ch, resp.choices.find? (fun c => c.index == i) = some ch ∧
      deltaConcat i chunks = ch.text := by
  obtain ⟨st', hss⟩ := generate_stream_inv hstream
  rw [streamSnapshots_eq_flat] at hss
  have hinit : (⟨List.replicate n [], List.replicate n 0⟩ :
      StreamState).previous_texts.getD i [] = [] := replicate_getD_nil n i
  obtain ⟨hA, _⟩ := processOutputs_delta_invariant i (flatOutputs snapshots) _ _ _
    hss (by rw [hinit]; exact hchain)
  rw [hinit, List.nil_append] at hA
  obtain ⟨fin', hlast', hbuild⟩ := nonstream_ok_inv hagg
  rw [hlast] at hlast'
  injection hlast' with hfin
  subst hfin
  obtain ⟨oStar, hfilter⟩ := List.length_eq_one.mp hone
  obtain ⟨l', hsnaps⟩ := List.getLast?_eq_some_iff.mp hlast
  have hflat2 : flatOutputs snapshots = flatOutputs l' ++ fin.outputs := by
    rw [hsnaps]; simp [flatOutputs]
  have hprojsplit : projTexts i (flatOutputs snapshots)
      = projTexts i (flatOutputs l') ++ projTexts i fin.outputs := by
    rw [hflat2]; simp [projTexts, List.filter_append]
  have hprojfin : projTexts i fin.outputs = [stripRepl oStar.text] := by
    simp [projTexts, hfilter]
  have hlastText : (projTexts i (flatOutputs snapshots)).getLastD []
      = stripRepl oStar.text := by
    rw [hprojsplit, hprojfin, getLastD_append_eq]
    simp
  have hfind : fin.outputs.find? (fun o => o.index == i) = some oStar := by
    rw [find?_eq_filter_head, hfilter]; rfl
  obtain ⟨cs, hbc, hcs⟩ := buildCompletion_inv hbuild
  obtain ⟨ch, hch, hchtext, _, _⟩ := buildChoices_find i fin.outputs cs hbc oStar hfind
  exact ⟨ch, by rw [hcs]; exact hch, by rw [hA, hlastText, hchtext]⟩

/-- C1 witness: two snapshots for one choice, cumulative texts
`"Hello,"` then `"Hello, world!"`: the streamed deltas `"Hello,"` and
`" world!"` concatenate to the aggregated full text. -/
theorem claim_C1_witness :
    ∃ ch, ([⟨0, strOf "Hello, world!", some "stop", none⟩] :
        List CompletionChoice).find? (fun c => c.index == 0) = some ch ∧
      deltaConcat 0
        [⟨0, strOf "Hello,", "stop", none, false, false⟩,
         ⟨0, strOf " world!", "stop", none, false, false⟩,
         ⟨0, strOf " world!", "stop", none, true, true⟩] = ch.text := by
  have h := claim_C1_stream_deltas_equal_full_text exTokenizer false 1 0
    [exSnap0, exSnap1] exSnap1
    [⟨0, strOf "Hello,", "stop", none, false, false⟩,
     ⟨0, strOf " world!", "stop", none, false, false⟩,
     ⟨0, strOf " world!", "stop", none, true, true⟩]
    ⟨"rid", [⟨0, strOf "Hello, world!", some "stop", none⟩], "m", ⟨2, 2, 4⟩⟩
    "rid" "m" (by rfl) (by rfl) (by rfl) (by rfl) (by rfl)
  exact h

/-- C2: when exactly one output of choice `i` across the snapshot sequence
carries a finish reason, the stream emits exactly one terminal chunk for
choice `i`; every terminal chunk sits immediately after a content chunk with
the same index and the same delta text; terminal chunks carry the explicitly
empty logprob record when logprobs were requested and `none` otherwise; and
the `exclude_none` serialization mode is used exactly on terminal chunks
(content chunks keep explicit nulls). -/
theorem claim_C2_terminal_chunk_once (tokenizer : Tokenizer)
    (logprobsRequested : Bool) (n i : Nat) (snapshots : List RequestOutput)
    (chunks : List WireChunk)
    (hstream : generate_completion_stream_generator tokenizer logprobsRequested n
      snapshots = .ok chunks)
    (hone : (finishingOutputs i (flatOutputs snapshots)).length = 1) :
    (terminalChunks i chunks).length = 1 ∧
    (∀ k c, chunks[k]? = some c → c.terminal = true →
      ∃ j p, k = j + 1 ∧ chunks[j]? = some p ∧ p.terminal = false ∧
        p.index = c.index ∧ p.text = c.text) ∧
    (∀ c ∈ chunks, c.terminal = true →
      c.logprobs = (if logprobsRequested then some emptyLogprobs else none)) ∧
    (∀ c ∈ chunks, c.exclude_none = c.terminal) := by
  obtain ⟨st', hss⟩ := generate_stream_inv hstream
  rw [streamSnapshots_eq_flat] at hss
  refine ⟨?_, ?_, ?_, ?_⟩
  · rw [processOutputs_terminal_count i _ _ _ _ hss]
    exact hone
  · exact processOutputs_adjacency _ _ _ _ hss
  · exact fun c hc hterm => (processOutputs_chunk_props _ _ _ _ hss c hc).2 hterm
  · exact fun c hc => (processOutputs_chunk_props _ _ _ _ hss c hc).1

/-- C2 witness: the two-snapshot run with logprobs requested emits exactly
one terminal chunk, adjacent to and repeating the last content chunk, with
the empty logprob record and the none-omitting serialization mode. -/
theorem claim_C2_witness :
    (terminalChunks 0
      [⟨0, strOf "Hello,", "stop",
        some ⟨[0], [-1], ["ab"], [[("ab", -1)]]⟩, false, false⟩,
       ⟨0, strOf " world!", "stop",
        some ⟨[6], [-2], ["c"], [[("c", -2)]]⟩, false, false⟩,
       ⟨0, strOf " world!", "stop", some emptyLogprobs, true, true⟩]).length = 1 ∧
    (∀ k c,
      ([⟨0, strOf "Hello,", "stop",
         some ⟨[0], [-1], ["ab"], [[("ab", -1)]]⟩, false, false⟩,
        ⟨0, strOf " world!", "stop",
         some ⟨[6], [-2], ["c"], [[("c", -2)]]⟩, false, false⟩,
        ⟨0, strOf " world!", "stop", some emptyLogprobs, true, true⟩] :
        List WireChunk)[k]? = some c → c.terminal = true →
      ∃ j p, k = j + 1 ∧
        ([⟨0, strOf "Hello,", "stop",
           some ⟨[0], [-1], ["ab"], [[("ab", -1)]]⟩, false, false⟩,
          ⟨0, strOf " world!", "stop",
           some ⟨[6], [-2], ["c"], [[("c", -2)]]⟩, false, false⟩,
          ⟨0, strOf " world!", "stop", some emptyLogprobs, true, true⟩] :
          List WireChunk)[j]? = some p ∧ p.terminal = false ∧
        p.index = c.index ∧ p.text = c.text) ∧
    (∀ c ∈ ([⟨0, strOf "Hello,", "stop",
         some ⟨[0], [-1], ["ab"], [[("ab", -1)]]⟩, false, false⟩,
        ⟨0, strOf " world!", "stop",
         some ⟨[6], [-2], ["c"], [[("c", -2)]]⟩, false, false⟩,
        ⟨0, strOf " world!", "stop", some emptyLogprobs, true, true⟩] :
        List WireChunk), c.terminal = true →
      c.logprobs = (if true then some emptyLogprobs else none)) ∧
    (∀ c ∈ ([⟨0, strOf "Hello,", "stop",
         some ⟨[0], [-1], ["ab"], [[("ab", -1)]]⟩, false, false⟩,
        ⟨0, strOf " world!", "stop",
         some ⟨[6], [-2], ["c"], [[("c", -2)]]⟩, false, false⟩,
        ⟨0, strOf " world!", "stop", some emptyLogprobs, true, true⟩] :
        List WireChunk), c.exclude_none = c.terminal) :=
  claim_C2_terminal_chunk_once exTokenizer true 1 0 [exSnap0, exSnap1]
    [⟨0, strOf "Hello,", "stop",
      some ⟨[0], [-1], ["ab"], [[("ab", -1)]]⟩, false, false⟩,
     ⟨0, strOf " world!", "stop",
      some ⟨[6], [-2], ["c"], [[("c", -2)]]⟩, false, false⟩,
     ⟨0, strOf " world!", "stop", some emptyLogprobs, true, true⟩]
    (by rfl) (by rfl)

end VllmCompletion
